import Mathlib

/-!
# Verification of birdnet-go audio processing (`process.go`, package `myaudio`)

Shallow embedding of `ProcessData`, `ConvertToFloat32` and the three
bit-depth converters (`convert16BitToFloat32`, `convert24BitToFloat32`,
`convert32BitToFloat32`).

Modelling decisions, justified against Go / IEEE-754 semantics:

* Go `byte` is modelled as `Fin 256`.

* Go `float32` values produced here are modelled as exact rationals.  Every
  float operation the converters perform is either exact in IEEE-754
  binary32 or is the single rounding step `float32(sampleInt)`:
  - `float32(i)` for an integer `i` rounds `i` to 24 significant bits with
    round-to-nearest, ties-to-even.  This is captured exactly by
    `float32OfInt` below (for `|i| < 2^24`, hence for the 16- and 24-bit
    converters, it is the identity; for the 32-bit converter the rounding
    is real: `float32(2^31 - 1) = 2^31`).
  - the subsequent division by `32768.0` / `8388608.0` / `2147483648.0` is
    a division of a 24-bit-significand value by an exact power of two whose
    result magnitude lies in `[2^-31, 1]`, far inside the normal binary32
    range, so it is exact (it only shifts the exponent).
  Hence each produced sample is exactly `float32OfInt v / 2^k` as a
  rational.

* Go signed-integer arithmetic wraps around two's complement.  The byte
  assembly expressions are modelled by the functions `int16OfBytes`,
  `int24OfBytes`, `int32OfBytes`, each documented with the Go expression it
  embeds.

* `time.Now()` is modelled by an ambient clock `clock : ℕ → ℤ`: the i-th
  read of the wall clock during one `ProcessData` call returns `clock i`.
  `ProcessData` additionally returns the ordered trace of observable
  events (clock reads, decode completion, the inference call, envelope
  submission, enqueue/shed) so that ordering claims are statable.

* The BirdNET engine `bn.Predict` is an external collaborator; it is a
  parameter `predict : List (List ℚ) → Except String α` with an opaque
  detection payload type `α`.

* The global channel `queue.ResultsQueue` (a buffered Go channel) is
  modelled as a `QueueState`: a capacity and the list of queued messages.
  The non-blocking `select`/`default` send enqueues iff the buffer has
  room and otherwise logs "Queue is full!".
-/

/-- Go `byte`. -/
abbrev Byte := Fin 256

/-! ## Sample assembly (two's-complement byte decoding) -/

/-- Embeds Go `int16(lo) | int16(hi)<<8` for bytes `lo`, `hi`: `int16(hi)<<8`
wraps around two's complement, and or-ing in the low byte adds it, so the
result is the signed 16-bit value whose unsigned bits are `lo + hi*2^8`. -/
def int16OfBytes (lo hi : Byte) : ℤ :=
  let u : ℕ := lo.val + hi.val * 2 ^ 8
  if u < 2 ^ 15 then (u : ℤ) else (u : ℤ) - 2 ^ 16

/-- Embeds Go
`s := int32(b0) | int32(b1)<<8 | int32(b2)<<16;
 if (s & 0x00800000) > 0 { s |= ^0x00FFFFFF }`.
The assembly fits in an `int32` without wrapping (`u < 2^24`); the mask test
`(s & 0x00800000) > 0` is the test of bit 23; or-ing `^0x00FFFFFF`
(= `0xFF000000` as `int32` bits) into a value `u < 2^24` with bit 23 set
yields the `int32` with unsigned bits `u + 0xFF000000`, whose signed value
is `u - 2^24`. -/
def int24OfBytes (b0 b1 b2 : Byte) : ℤ :=
  let u : ℕ := b0.val + b1.val * 2 ^ 8 + b2.val * 2 ^ 16
  if u.testBit 23 then (u : ℤ) - 2 ^ 24 else (u : ℤ)

/-- Embeds Go `int32(b0) | int32(b1)<<8 | int32(b2)<<16 | int32(b3)<<24`:
`int32(b3)<<24` wraps around two's complement, so the result is the signed
32-bit value whose unsigned bits are `b0 + b1*2^8 + b2*2^16 + b3*2^24`. -/
def int32OfBytes (b0 b1 b2 b3 : Byte) : ℤ :=
  let u : ℕ := b0.val + b1.val * 2 ^ 8 + b2.val * 2 ^ 16 + b3.val * 2 ^ 24
  if u < 2 ^ 31 then (u : ℤ) else (u : ℤ) - 2 ^ 32

/-! ## The conversion `float32(i)` of an integer, as an exact integer

For `|i| ≤ 2^31` (the `int32` range and its negation bound) the value of
`float32(i)` is an integer, namely `i` rounded to at most 24 significant
bits by round-to-nearest-ties-to-even. -/

/-- Round `n` to the nearest multiple of `2 ^ k`, ties to even (in units of
`2 ^ k`). -/
def roundToUlp (n k : ℕ) : ℕ :=
  let ulp := 2 ^ k
  let q := n / ulp
  let r := n % ulp
  if 2 * r < ulp then q * ulp
  else if ulp < 2 * r then (q + 1) * ulp
  else if q % 2 = 0 then q * ulp else (q + 1) * ulp

/-- Round a natural number `n ≤ 2 ^ 32` to 24 significant bits,
round-to-nearest with ties to even: the IEEE-754 binary32 value of a
nonnegative integer in that range (which covers every `int32` magnitude).
For `n` in the binade `[2 ^ e, 2 ^ (e + 1))` the unit in the last place is
`2 ^ (e - 23)`; the binade is located by the cascaded comparisons. -/
def round24Nat (n : ℕ) : ℕ :=
  if n < 2 ^ 24 then n
  else
    roundToUlp n
      (if n < 2 ^ 25 then 1
       else if n < 2 ^ 26 then 2
       else if n < 2 ^ 27 then 3
       else if n < 2 ^ 28 then 4
       else if n < 2 ^ 29 then 5
       else if n < 2 ^ 30 then 6
       else if n < 2 ^ 31 then 7
       else 8)

/-- The exact value of Go `float32(i)` for an integer `i` with
`|i| ≤ 2^31`: round the magnitude to 24 significant bits
(round-to-nearest, ties-to-even); the sign is preserved. -/
def float32OfInt (i : ℤ) : ℤ :=
  if i < 0 then -(round24Nat i.natAbs : ℤ) else (round24Nat i.natAbs : ℤ)

/-! ## The decoders (`process.go` lines 88–130) -/

/-- Embeds `convert16BitToFloat32`: `length := len(sample)/2`; for each
`i < length`, `s := int16(sample[i*2]) | int16(sample[i*2+1])<<8` and
`float32Data[i] = float32(s) / 32768.0`. -/
def convert16BitToFloat32 (sample : List Byte) : List ℚ :=
  (List.range (sample.length / 2)).map fun i =>
    (float32OfInt (int16OfBytes (sample.getD (i * 2) 0) (sample.getD (i * 2 + 1) 0)) : ℚ)
      / 32768

/-- Embeds `convert24BitToFloat32`: `length := len(sample)/3`; for each
`i < length`, assemble bytes `i*3, i*3+1, i*3+2`, sign-extend, and
`float32Data[i] = float32(s) / 8388608.0`. -/
def convert24BitToFloat32 (sample : List Byte) : List ℚ :=
  (List.range (sample.length / 3)).map fun i =>
    (float32OfInt (int24OfBytes (sample.getD (i * 3) 0) (sample.getD (i * 3 + 1) 0)
      (sample.getD (i * 3 + 2) 0)) : ℚ) / 8388608

/-- Embeds `convert32BitToFloat32`: `length := len(sample)/4`; for each
`i < length`, assemble bytes `i*4 .. i*4+3`, and
`float32Data[i] = float32(s) / 2147483648.0`. -/
def convert32BitToFloat32 (sample : List Byte) : List ℚ :=
  (List.range (sample.length / 4)).map fun i =>
    (float32OfInt (int32OfBytes (sample.getD (i * 4) 0) (sample.getD (i * 4 + 1) 0)
      (sample.getD (i * 4 + 2) 0) (sample.getD (i * 4 + 3) 0)) : ℚ) / 2147483648

/-- The error returned by `ConvertToFloat32`
(`errors.New("unsupported audio bit depth")`). -/
inductive ConvError where
  | unsupportedBitDepth
deriving DecidableEq

/-- Embeds `ConvertToFloat32` (`process.go` lines 74–85): the `switch` on
the bit depth (sequential case tests), wrapping the decoded samples as a
single channel. -/
def ConvertToFloat32 (sample : List Byte) (bitDepth : ℕ) :
    Except ConvError (List (List ℚ)) :=
  if bitDepth = 16 then .ok [convert16BitToFloat32 sample]
  else if bitDepth = 24 then .ok [convert24BitToFloat32 sample]
  else if bitDepth = 32 then .ok [convert32BitToFloat32 sample]
  else .error .unsupportedBitDepth

/-! ## The processing pipeline (`process.go` lines 17–70)

`ProcessData` reads the clock (line 19), decodes (line 22), runs inference
(line 28), computes the elapsed time (line 41 via `logProcessingTime`,
which calls `time.Since`, i.e. reads the clock a second time), builds the
`queue.Results` message (lines 44–50) and performs a non-blocking send on
the buffered channel `queue.ResultsQueue` (lines 53–59), logging
"Queue is full!" when the buffer is full.  Every step is mirrored below in
source order; the returned trace lists the observable events in the order
the code performs them. -/

/-- The `queue.Results` message (the result envelope). -/
structure Results (α : Type) where
  StartTime : ℤ
  ElapsedTime : ℤ
  PCMdata : List Byte
  Results : α
  Source : String
deriving DecidableEq

/-- The buffered channel `queue.ResultsQueue`: a capacity (set externally
when the channel is made) and the messages currently buffered. -/
structure QueueState (α : Type) where
  capacity : ℕ
  items : List (Results α)
deriving DecidableEq

/-- Observable events of one `ProcessData` call, in program order. -/
inductive Event (α : Type) where
  /-- A call to `time.Now()` returning instant `t`. -/
  | clockRead (t : ℤ)
  /-- `ConvertToFloat32` returned successfully. -/
  | decoded
  /-- The inference engine `bn.Predict` was invoked. -/
  | predicted
  /-- The envelope `msg` was handed to the channel send attempt. -/
  | submitted (msg : Results α)
  /-- The non-blocking send succeeded. -/
  | enqueued
  /-- The send hit a full channel: `log.Println("Queue is full!")`. -/
  | queueFull
deriving DecidableEq

/-- The error returned by `ProcessData`: either the wrapped conversion
error (`fmt.Errorf("error converting %v bit PCM data to float32: %w",
conf.BitDepth, err)`) or the wrapped inference error
(`fmt.Errorf("error predicting species: %w", err)`). -/
inductive ProcError where
  | conversion (bitDepth : ℕ) (cause : ConvError)
  | inference (cause : String)
deriving DecidableEq

/-- Embeds `logProcessingTime(startTime)`: `time.Since(startTime)`, where
`now` is the instant the enclosed `time.Now()` returns. -/
def logProcessingTime (now startTime : ℤ) : ℤ :=
  now - startTime

/-- Embeds `ProcessData(bn, data, startTime, source)`.  `clock i` is the
value returned by the i-th `time.Now()` of this call; `predict` is the
engine `bn.Predict`; `bitDepth` is `conf.BitDepth`; `q` is the state of
`queue.ResultsQueue`.  Returns the Go return value, the new channel state
and the event trace. -/
def ProcessData {α : Type} (clock : ℕ → ℤ) (bitDepth : ℕ)
    (predict : List (List ℚ) → Except String α) (q : QueueState α)
    (data : List Byte) (startTime : ℤ) (source : String) :
    Except ProcError Unit × QueueState α × List (Event α) :=
  -- line 19: predictStart := time.Now()
  let predictStart := clock 0
  -- line 22: sampleData, err := ConvertToFloat32(data, conf.BitDepth)
  match ConvertToFloat32 data bitDepth with
  | .error e =>
      -- line 24: return fmt.Errorf("error converting ...: %w", ...)
      (.error (.conversion bitDepth e), q, [.clockRead predictStart])
  | .ok sampleData =>
      -- line 28: results, err := bn.Predict(sampleData)
      match predict sampleData with
      | .error e =>
          -- line 30: return fmt.Errorf("error predicting species: %w", err)
          (.error (.inference e), q,
            [.clockRead predictStart, .decoded, .predicted])
      | .ok results =>
          -- line 41: elapsedTime := logProcessingTime(predictStart)
          let elapsedTime := logProcessingTime (clock 1) predictStart
          -- lines 44–50: the queue.Results message
          let msg : Results α :=
            { StartTime := startTime, ElapsedTime := elapsedTime,
              PCMdata := data, Results := results, Source := source }
          -- lines 53–59: select { case queue.ResultsQueue <- &msg: ... default: log }
          if q.items.length < q.capacity then
            (.ok (), { q with items := q.items ++ [msg] },
              [.clockRead predictStart, .decoded, .predicted,
               .clockRead (clock 1), .submitted msg, .enqueued])
          else
            (.ok (), q,
              [.clockRead predictStart, .decoded, .predicted,
               .clockRead (clock 1), .submitted msg, .queueFull])

/-! ## Spec-side sample formulas

Reference definitions written from the specification's words (not from the
source), used to state the per-sample refinement claims for the 16- and
24-bit decoders. -/

/-- From the spec: "each 2-byte group forms a signed 16-bit integer (low
byte first); normalize by dividing by 32768.0". -/
def spec16Sample (lo hi : Byte) : ℚ :=
  let u : ℕ := lo.val + hi.val * 2 ^ 8
  let v : ℤ := if u < 2 ^ 15 then (u : ℤ) else (u : ℤ) - 2 ^ 16
  (v : ℚ) / 32768

/-- From the spec: "each 3-byte group forms an unsigned 24-bit value (low
byte first); if bit 23 is set, sign-extend to a signed 32-bit integer by
setting all higher bits; normalize by dividing by 8388608.0".  Setting
bits 24–31 of a 32-bit word holding `u < 2 ^ 24` gives the two's-complement
value `u - 2 ^ 24`. -/
def spec24Sample (b0 b1 b2 : Byte) : ℚ :=
  let u : ℕ := b0.val + b1.val * 2 ^ 8 + b2.val * 2 ^ 16
  let v : ℤ := if u.testBit 23 then (u : ℤ) - 2 ^ 24 else (u : ℤ)
  (v : ℚ) / 8388608

/-! ## Evaluation lemmas for single-sample buffers -/

/-- A two-byte buffer decodes (at depth 16) to the one sample the source
loop computes from it. -/
lemma convert16_pair (b0 b1 : Byte) :
    convert16BitToFloat32 [b0, b1] =
      [(float32OfInt (int16OfBytes b0 b1) : ℚ) / 32768] := by
  simp [convert16BitToFloat32, List.range_succ]

/-- A three-byte buffer decodes (at depth 24) to the one sample the source
loop computes from it. -/
lemma convert24_triple (b0 b1 b2 : Byte) :
    convert24BitToFloat32 [b0, b1, b2] =
      [(float32OfInt (int24OfBytes b0 b1 b2) : ℚ) / 8388608] := by
  simp [convert24BitToFloat32, List.range_succ]

/-- A four-byte buffer decodes (at depth 32) to the one sample the source
loop computes from it. -/
lemma convert32_quad (b0 b1 b2 b3 : Byte) :
    convert32BitToFloat32 [b0, b1, b2, b3] =
      [(float32OfInt (int32OfBytes b0 b1 b2 b3) : ℚ) / 2147483648] := by
  simp [convert32BitToFloat32, List.range_succ]

/-! ## Rounding and range lemmas -/

/-- Values below `2 ^ 24` have at most 24 significant bits: rounding is the
identity. -/
lemma round24Nat_of_lt {n : ℕ} (h : n < 2 ^ 24) : round24Nat n = n := by
  unfold round24Nat
  rw [if_pos h]

/-- `float32(i)` is exact on integers of magnitude below `2 ^ 24`. -/
lemma float32OfInt_eq_self {i : ℤ} (h : i.natAbs < 2 ^ 24) :
    float32OfInt i = i := by
  unfold float32OfInt
  rw [round24Nat_of_lt h]
  split <;> omega

/-- Rounding to a multiple of `2 ^ k` (ties to even) never leaves an
interval `[0, 2 ^ k * M]` whose right end is a multiple of `2 ^ k`. -/
lemma roundToUlp_le (n k M : ℕ) (h : n ≤ 2 ^ k * M) :
    roundToUlp n k ≤ 2 ^ k * M := by
  unfold roundToUlp
  have hpos : 0 < 2 ^ k := Nat.pos_pow_of_pos k (by norm_num)
  have hdm := Nat.div_add_mod n (2 ^ k)
  have hq : n / 2 ^ k * 2 ^ k ≤ n := Nat.div_mul_le_self n (2 ^ k)
  have hup : 0 < n % 2 ^ k → (n / 2 ^ k + 1) * 2 ^ k ≤ 2 ^ k * M := by
    intro hr
    have h2 : n / 2 ^ k < M := by
      by_contra hc
      push_neg at hc
      have : 2 ^ k * M ≤ 2 ^ k * (n / 2 ^ k) := Nat.mul_le_mul_left _ hc
      have : 2 ^ k * (n / 2 ^ k) = n / 2 ^ k * 2 ^ k := Nat.mul_comm _ _
      omega
    calc (n / 2 ^ k + 1) * 2 ^ k ≤ M * 2 ^ k := Nat.mul_le_mul_right _ (by omega)
    _ = 2 ^ k * M := Nat.mul_comm _ _
  dsimp only
  split
  · omega
  · split
    · exact hup (by omega)
    · split
      · omega
      · exact hup (by omega)

/-- Rounding to 24 significant bits never leaves `[0, 2 ^ 31]`. -/
lemma round24Nat_le {n : ℕ} (h : n ≤ 2 ^ 31) : round24Nat n ≤ 2 ^ 31 := by
  unfold round24Nat
  split
  · omega
  · split
    · exact roundToUlp_le n 1 (2 ^ 30) (by norm_num at h ⊢; omega)
    · split
      · exact roundToUlp_le n 2 (2 ^ 29) (by norm_num at h ⊢; omega)
      · split
        · exact roundToUlp_le n 3 (2 ^ 28) (by norm_num at h ⊢; omega)
        · split
          · exact roundToUlp_le n 4 (2 ^ 27) (by norm_num at h ⊢; omega)
          · split
            · exact roundToUlp_le n 5 (2 ^ 26) (by norm_num at h ⊢; omega)
            · split
              · exact roundToUlp_le n 6 (2 ^ 25) (by norm_num at h ⊢; omega)
              · split
                · exact roundToUlp_le n 7 (2 ^ 24) (by norm_num at h ⊢; omega)
                · exact roundToUlp_le n 8 (2 ^ 23) (by norm_num at h ⊢; omega)

/-- `float32(i)` stays within `[-2 ^ 31, 2 ^ 31]` for every `int32`-range
integer (the upper end is attained: `float32(2 ^ 31 - 1) = 2 ^ 31`). -/
lemma float32OfInt_bound {i : ℤ} (h : i.natAbs ≤ 2 ^ 31) :
    -(2 ^ 31 : ℤ) ≤ float32OfInt i ∧ float32OfInt i ≤ 2 ^ 31 := by
  have := round24Nat_le h
  unfold float32OfInt
  split <;> constructor <;> omega

/-- Range of the assembled 16-bit sample. -/
lemma int16OfBytes_bound (lo hi : Byte) :
    -(2 ^ 15 : ℤ) ≤ int16OfBytes lo hi ∧ int16OfBytes lo hi < 2 ^ 15 := by
  have hlo := lo.isLt
  have hhi := hi.isLt
  unfold int16OfBytes
  dsimp only
  split <;> constructor <;> omega

/-- Range of the assembled, sign-extended 24-bit sample. -/
lemma int24OfBytes_bound (b0 b1 b2 : Byte) :
    -(2 ^ 23 : ℤ) ≤ int24OfBytes b0 b1 b2 ∧ int24OfBytes b0 b1 b2 < 2 ^ 23 := by
  have h0 := b0.isLt
  have h1 := b1.isLt
  have h2 := b2.isLt
  have hu : (b0.val + b1.val * 2 ^ 8 + b2.val * 2 ^ 16) < 2 ^ 24 := by omega
  simp only [int24OfBytes, Nat.testBit_to_div_mod, decide_eq_true_eq]
  split <;> constructor <;> omega

/-- Range of the assembled 32-bit sample. -/
lemma int32OfBytes_bound (b0 b1 b2 b3 : Byte) :
    -(2 ^ 31 : ℤ) ≤ int32OfBytes b0 b1 b2 b3 ∧ int32OfBytes b0 b1 b2 b3 < 2 ^ 31 := by
  have h0 := b0.isLt
  have h1 := b1.isLt
  have h2 := b2.isLt
  have h3 := b3.isLt
  unfold int32OfBytes
  dsimp only
  split <;> constructor <;> omega

/-- A quotient `v / c` with `-c ≤ v ≤ c` (for positive `c`) lies in
`[-1, 1]`. -/
lemma div_mem_unit (v : ℤ) (c : ℚ) (hc : 0 < c) (h1 : -c ≤ (v : ℚ))
    (h2 : (v : ℚ) ≤ c) : -1 ≤ (v : ℚ) / c ∧ (v : ℚ) / c ≤ 1 := by
  constructor
  · rw [le_div_iff₀ hc]
    linarith
  · rw [div_le_one hc]
    exact h2

/-! ## Sample-range lemmas (one per decoder) -/

/-- Every 16-bit decoded sample lies in `[-1, 1]`. -/
lemma mem_convert16_bound {data : List Byte} {x : ℚ}
    (hx : x ∈ convert16BitToFloat32 data) : -1 ≤ x ∧ x ≤ 1 := by
  unfold convert16BitToFloat32 at hx
  obtain ⟨i, hi, rfl⟩ := List.mem_map.mp hx
  have hb := int16OfBytes_bound (data.getD (i * 2) 0) (data.getD (i * 2 + 1) 0)
  rw [float32OfInt_eq_self (by omega)]
  exact div_mem_unit _ _ (by norm_num)
    (by exact_mod_cast (by omega : -(32768 : ℤ) ≤
      int16OfBytes (data.getD (i * 2) 0) (data.getD (i * 2 + 1) 0)))
    (by exact_mod_cast (by omega :
      int16OfBytes (data.getD (i * 2) 0) (data.getD (i * 2 + 1) 0) ≤ (32768 : ℤ)))

/-- Every 24-bit decoded sample lies in `[-1, 1]`. -/
lemma mem_convert24_bound {data : List Byte} {x : ℚ}
    (hx : x ∈ convert24BitToFloat32 data) : -1 ≤ x ∧ x ≤ 1 := by
  unfold convert24BitToFloat32 at hx
  obtain ⟨i, hi, rfl⟩ := List.mem_map.mp hx
  have hb := int24OfBytes_bound (data.getD (i * 3) 0) (data.getD (i * 3 + 1) 0)
    (data.getD (i * 3 + 2) 0)
  rw [float32OfInt_eq_self (by omega)]
  exact div_mem_unit _ _ (by norm_num)
    (by exact_mod_cast (by omega : -(8388608 : ℤ) ≤
      int24OfBytes (data.getD (i * 3) 0) (data.getD (i * 3 + 1) 0) (data.getD (i * 3 + 2) 0)))
    (by exact_mod_cast (by omega :
      int24OfBytes (data.getD (i * 3) 0) (data.getD (i * 3 + 1) 0) (data.getD (i * 3 + 2) 0)
        ≤ (8388608 : ℤ)))

/-- Every 32-bit decoded sample lies in `[-1, 1]` (here the `float32`
rounding genuinely matters: the sample can be exactly `1`). -/
lemma mem_convert32_bound {data : List Byte} {x : ℚ}
    (hx : x ∈ convert32BitToFloat32 data) : -1 ≤ x ∧ x ≤ 1 := by
  unfold convert32BitToFloat32 at hx
  obtain ⟨i, hi, rfl⟩ := List.mem_map.mp hx
  have hb := int32OfBytes_bound (data.getD (i * 4) 0) (data.getD (i * 4 + 1) 0)
    (data.getD (i * 4 + 2) 0) (data.getD (i * 4 + 3) 0)
  have hf := float32OfInt_bound
    (i := int32OfBytes (data.getD (i * 4) 0) (data.getD (i * 4 + 1) 0)
      (data.getD (i * 4 + 2) 0) (data.getD (i * 4 + 3) 0)) (by omega)
  exact div_mem_unit _ _ (by norm_num)
    (by exact_mod_cast (by omega : -(2147483648 : ℤ) ≤
      float32OfInt (int32OfBytes (data.getD (i * 4) 0) (data.getD (i * 4 + 1) 0)
        (data.getD (i * 4 + 2) 0) (data.getD (i * 4 + 3) 0))))
    (by exact_mod_cast (by omega :
      float32OfInt (int32OfBytes (data.getD (i * 4) 0) (data.getD (i * 4 + 1) 0)
        (data.getD (i * 4 + 2) 0) (data.getD (i * 4 + 3) 0)) ≤ (2147483648 : ℤ)))

/-! ## Concatenation of sample-aligned buffers -/

/-- Decoding a `w`-byte-per-sample loop distributes over `++` when the left
buffer holds a whole number of samples and the per-index body reads only
bytes of the corresponding buffer. -/
lemma decode_map_append (w : ℕ) (f : List Byte → ℕ → ℚ) (a b : List Byte)
    (ha : a.length % w = 0) (hw : 0 < w)
    (hfa : ∀ i, i < a.length / w → f (a ++ b) i = f a i)
    (hfb : ∀ j, f (a ++ b) (a.length / w + j) = f b j) :
    (List.range ((a ++ b).length / w)).map (f (a ++ b)) =
      (List.range (a.length / w)).map (f a) ++
        (List.range (b.length / w)).map (f b) := by
  obtain ⟨k, hk⟩ := Nat.dvd_of_mod_eq_zero ha
  have hlen : (a ++ b).length / w = a.length / w + b.length / w := by
    rw [List.length_append, hk, Nat.mul_add_div hw, Nat.mul_div_cancel_left k hw]
  rw [hlen, List.range_add, List.map_append, List.map_map]
  congr 1
  · exact List.map_congr_left fun i hi => hfa i (List.mem_range.mp hi)
  · refine List.map_congr_left fun j hj => ?_
    simp only [Function.comp_apply]
    exact hfb j

/-- 16-bit decoding distributes over concatenation at a sample boundary. -/
lemma convert16_append (a b : List Byte) (ha : a.length % 2 = 0) :
    convert16BitToFloat32 (a ++ b) =
      convert16BitToFloat32 a ++ convert16BitToFloat32 b := by
  unfold convert16BitToFloat32
  refine decode_map_append 2
    (fun l i =>
      (float32OfInt (int16OfBytes (l.getD (i * 2) 0) (l.getD (i * 2 + 1) 0)) : ℚ) / 32768)
    a b ha (by norm_num) ?_ ?_
  · intro i hi
    dsimp only
    rw [List.getD_append _ _ _ _ (by omega), List.getD_append _ _ _ _ (by omega)]
  · intro j
    have e1 : (a.length / 2 + j) * 2 = a.length + j * 2 := by omega
    have e2 : a.length + j * 2 + 1 = a.length + (j * 2 + 1) := by omega
    dsimp only
    rw [e1, e2, List.getD_append_right _ _ _ _ (by omega),
      List.getD_append_right _ _ _ _ (by omega), Nat.add_sub_cancel_left,
      Nat.add_sub_cancel_left]

/-- 24-bit decoding distributes over concatenation at a sample boundary. -/
lemma convert24_append (a b : List Byte) (ha : a.length % 3 = 0) :
    convert24BitToFloat32 (a ++ b) =
      convert24BitToFloat32 a ++ convert24BitToFloat32 b := by
  unfold convert24BitToFloat32
  refine decode_map_append 3
    (fun l i =>
      (float32OfInt (int24OfBytes (l.getD (i * 3) 0) (l.getD (i * 3 + 1) 0)
        (l.getD (i * 3 + 2) 0)) : ℚ) / 8388608)
    a b ha (by norm_num) ?_ ?_
  · intro i hi
    dsimp only
    rw [List.getD_append _ _ _ _ (by omega), List.getD_append _ _ _ _ (by omega),
      List.getD_append _ _ _ _ (by omega)]
  · intro j
    have e1 : (a.length / 3 + j) * 3 = a.length + j * 3 := by omega
    have e2 : a.length + j * 3 + 1 = a.length + (j * 3 + 1) := by omega
    have e3 : a.length + j * 3 + 2 = a.length + (j * 3 + 2) := by omega
    dsimp only
    rw [e1, e2, e3, List.getD_append_right _ _ _ _ (by omega),
      List.getD_append_right _ _ _ _ (by omega),
      List.getD_append_right _ _ _ _ (by omega), Nat.add_sub_cancel_left,
      Nat.add_sub_cancel_left, Nat.add_sub_cancel_left]

/-- 32-bit decoding distributes over concatenation at a sample boundary. -/
lemma convert32_append (a b : List Byte) (ha : a.length % 4 = 0) :
    convert32BitToFloat32 (a ++ b) =
      convert32BitToFloat32 a ++ convert32BitToFloat32 b := by
  unfold convert32BitToFloat32
  refine decode_map_append 4
    (fun l i =>
      (float32OfInt (int32OfBytes (l.getD (i * 4) 0) (l.getD (i * 4 + 1) 0)
        (l.getD (i * 4 + 2) 0) (l.getD (i * 4 + 3) 0)) : ℚ) / 2147483648)
    a b ha (by norm_num) ?_ ?_
  · intro i hi
    dsimp only
    rw [List.getD_append _ _ _ _ (by omega), List.getD_append _ _ _ _ (by omega),
      List.getD_append _ _ _ _ (by omega), List.getD_append _ _ _ _ (by omega)]
  · intro j
    have e1 : (a.length / 4 + j) * 4 = a.length + j * 4 := by omega
    have e2 : a.length + j * 4 + 1 = a.length + (j * 4 + 1) := by omega
    have e3 : a.length + j * 4 + 2 = a.length + (j * 4 + 2) := by omega
    have e4 : a.length + j * 4 + 3 = a.length + (j * 4 + 3) := by omega
    dsimp only
    rw [e1, e2, e3, e4, List.getD_append_right _ _ _ _ (by omega),
      List.getD_append_right _ _ _ _ (by omega),
      List.getD_append_right _ _ _ _ (by omega),
      List.getD_append_right _ _ _ _ (by omega), Nat.add_sub_cancel_left,
      Nat.add_sub_cancel_left, Nat.add_sub_cancel_left, Nat.add_sub_cancel_left]

/-- The empty buffer decodes at depth 16 to one empty channel (used to
instantiate pipeline theorems on concrete inputs). -/
lemma conv_nil_16 : ConvertToFloat32 [] 16 = .ok [[]] := by
  simp [ConvertToFloat32, convert16BitToFloat32]

/-! ## Claims about the decoders -/

/-- C3: for every byte buffer at declared bit depth 16, the i-th decoded
sample equals the signed 16-bit integer formed from bytes 2i (low) and
2i+1 (high) divided by 32768.0; in particular bytes `[0x00, 0x80]` decode
to -1.0 and bytes `[0xFF, 0x7F]` decode to 32767/32768. -/
theorem convert16_sample_spec :
    (∀ (data : List Byte) (i : ℕ), i < data.length / 2 →
      (convert16BitToFloat32 data).get? i =
        some (spec16Sample (data.getD (2 * i) 0) (data.getD (2 * i + 1) 0))) ∧
    convert16BitToFloat32 [0x00, 0x80] = [-1] ∧
    convert16BitToFloat32 [0xFF, 0x7F] = [32767 / 32768] := by
  refine ⟨?_, ?_, ?_⟩
  · intro data i hi
    unfold convert16BitToFloat32
    rw [List.get?_eq_getElem?, List.getElem?_map, List.getElem?_range hi]
    simp only [Option.map_some']
    have hb := int16OfBytes_bound (data.getD (i * 2) 0) (data.getD (i * 2 + 1) 0)
    rw [float32OfInt_eq_self (by omega)]
    rw [Nat.mul_comm i 2]
    simp only [spec16Sample, int16OfBytes]
  · rw [convert16_pair, show float32OfInt (int16OfBytes 0 128) = -32768 from by decide]
    norm_num
  · rw [convert16_pair, show float32OfInt (int16OfBytes 255 127) = 32767 from by decide]
    norm_num

/-- Witness for C3: the buffer `[1, 2]` has a sample 0, and the theorem
yields its spec-side value. -/
theorem convert16_sample_spec_witness :
    (0 : ℕ) < ([1, 2] : List Byte).length / 2 ∧
    (convert16BitToFloat32 [1, 2]).get? 0 = some (spec16Sample 1 2) :=
  ⟨by norm_num, by simpa using convert16_sample_spec.1 [1, 2] 0 (by norm_num)⟩

/-- C2: for every byte buffer at declared bit depth 24, the i-th decoded
sample is obtained by assembling bytes 3i, 3i+1, 3i+2 (low byte first)
into an unsigned 24-bit value, sign-extending to a signed 32-bit integer
exactly when bit 23 is set, and dividing by 8388608.0; in particular bytes
`[0x00, 0x00, 0x80]` decode to -1.0 and `[0xFF, 0xFF, 0x7F]` to
8388607/8388608. -/
theorem convert24_sample_spec :
    (∀ (data : List Byte) (i : ℕ), i < data.length / 3 →
      (convert24BitToFloat32 data).get? i =
        some (spec24Sample (data.getD (3 * i) 0) (data.getD (3 * i + 1) 0)
          (data.getD (3 * i + 2) 0))) ∧
    convert24BitToFloat32 [0x00, 0x00, 0x80] = [-1] ∧
    convert24BitToFloat32 [0xFF, 0xFF, 0x7F] = [8388607 / 8388608] := by
  refine ⟨?_, ?_, ?_⟩
  · intro data i hi
    unfold convert24BitToFloat32
    rw [List.get?_eq_getElem?, List.getElem?_map, List.getElem?_range hi]
    simp only [Option.map_some']
    have hb := int24OfBytes_bound (data.getD (i * 3) 0) (data.getD (i * 3 + 1) 0)
      (data.getD (i * 3 + 2) 0)
    rw [float32OfInt_eq_self (by omega)]
    rw [Nat.mul_comm i 3]
    simp only [spec24Sample, int24OfBytes]
  · rw [convert24_triple, show float32OfInt (int24OfBytes 0 0 128) = -8388608 from by decide]
    norm_num
  · rw [convert24_triple,
      show float32OfInt (int24OfBytes 255 255 127) = 8388607 from by decide]
    norm_num

/-- Witness for C2: the buffer `[1, 2, 3]` has a sample 0, and the theorem
yields its spec-side value. -/
theorem convert24_sample_spec_witness :
    (0 : ℕ) < ([1, 2, 3] : List Byte).length / 3 ∧
    (convert24BitToFloat32 [1, 2, 3]).get? 0 = some (spec24Sample 1 2 3) :=
  ⟨by norm_num, by simpa using convert24_sample_spec.1 [1, 2, 3] 0 (by norm_num)⟩

/-- C4: for every byte buffer and every supported bit depth d, conversion
succeeds with exactly one channel whose length is the byte length divided
by d/8, rounding down (trailing bytes that do not complete a sample are
ignored without error). -/
theorem convertToFloat32_channel_length (data : List Byte) (d : ℕ)
    (hd : d = 16 ∨ d = 24 ∨ d = 32) :
    ∃ ch, ConvertToFloat32 data d = .ok [ch] ∧
      ch.length = data.length / (d / 8) := by
  rcases hd with h | h | h <;> subst h
  · exact ⟨convert16BitToFloat32 data, by simp [ConvertToFloat32],
      by simp [convert16BitToFloat32]⟩
  · exact ⟨convert24BitToFloat32 data, by simp [ConvertToFloat32],
      by simp [convert24BitToFloat32]⟩
  · exact ⟨convert32BitToFloat32 data, by simp [ConvertToFloat32],
      by simp [convert32BitToFloat32]⟩

/-- Witness for C4: a 16-bit decode of a 5-byte buffer yields exactly 2
samples in a single channel. -/
theorem convertToFloat32_channel_length_witness :
    ((16 : ℕ) = 16 ∨ (16 : ℕ) = 24 ∨ (16 : ℕ) = 32) ∧
    ∃ ch, ConvertToFloat32 [0, 1, 2, 3, 4] 16 = .ok [ch] ∧ ch.length = 2 :=
  ⟨by norm_num, by simpa using convertToFloat32_channel_length [0, 1, 2, 3, 4] 16 (by norm_num)⟩

/-- C10: for every supported bit depth d and byte buffers a, b with a a
whole number of samples, decoding a ++ b yields the decoded channel of a
followed by the decoded channel of b. -/
theorem convertToFloat32_append_hom (d : ℕ) (hd : d = 16 ∨ d = 24 ∨ d = 32)
    (a b : List Byte) (ha : a.length % (d / 8) = 0) :
    ∃ ca cb cab, ConvertToFloat32 a d = .ok [ca] ∧ ConvertToFloat32 b d = .ok [cb] ∧
      ConvertToFloat32 (a ++ b) d = .ok [cab] ∧ cab = ca ++ cb := by
  rcases hd with h | h | h <;> subst h
  · exact ⟨_, _, _, by simp [ConvertToFloat32], by simp [ConvertToFloat32],
      by simp [ConvertToFloat32], convert16_append a b ha⟩
  · exact ⟨_, _, _, by simp [ConvertToFloat32], by simp [ConvertToFloat32],
      by simp [ConvertToFloat32], convert24_append a b ha⟩
  · exact ⟨_, _, _, by simp [ConvertToFloat32], by simp [ConvertToFloat32],
      by simp [ConvertToFloat32], convert32_append a b ha⟩

/-- Witness for C10 at depth 16 with a = `[5, 6]` (one whole sample) and
b = `[7]`. -/
theorem convertToFloat32_append_hom_witness :
    (([5, 6] : List Byte).length % (16 / 8) = 0) ∧
    ∃ ca cb cab, ConvertToFloat32 [5, 6] 16 = .ok [ca] ∧
      ConvertToFloat32 [7] 16 = .ok [cb] ∧
      ConvertToFloat32 ([5, 6] ++ [7]) 16 = .ok [cab] ∧ cab = ca ++ cb :=
  ⟨by norm_num, convertToFloat32_append_hom 16 (by norm_num) [5, 6] [7] (by norm_num)⟩

/-- C8 counterexample: at bit depth 32 the buffer `[0xFF, 0xFF, 0xFF, 0x7F]`
(the int32 2147483647) decodes to exactly 1.0 — `float32(2^31 - 1)` rounds
up to `2^31` — so a decoded sample is NOT strictly less than +1.0. -/
theorem sample_range_strict_cex :
    ConvertToFloat32 [0xFF, 0xFF, 0xFF, 0x7F] 32 = .ok [[(1 : ℚ)]] ∧
    ¬ ((1 : ℚ) < 1) := by
  refine ⟨?_, by norm_num⟩
  have h0 : ConvertToFloat32 [0xFF, 0xFF, 0xFF, 0x7F] 32 =
      .ok [convert32BitToFloat32 [0xFF, 0xFF, 0xFF, 0x7F]] := by
    simp [ConvertToFloat32]
  rw [h0, convert32_quad,
    show float32OfInt (int32OfBytes 255 255 255 127) = 2147483648 from by decide]
  norm_num

/-- C8 (amended): for every byte buffer and every supported bit depth,
every decoded sample lies in the closed range [-1.0, +1.0] (the upper end
is attained at depth 32, so the bound is not strict). -/
theorem sample_range_closed (data : List Byte) (d : ℕ)
    (hd : d = 16 ∨ d = 24 ∨ d = 32)
    (chans : List (List ℚ)) (hc : ConvertToFloat32 data d = .ok chans)
    (ch : List ℚ) (hch : ch ∈ chans) (x : ℚ) (hx : x ∈ ch) :
    -1 ≤ x ∧ x ≤ 1 := by
  rcases hd with h | h | h <;> subst h <;> simp only [ConvertToFloat32] at hc <;>
    norm_num at hc <;> subst hc <;> rw [List.mem_singleton] at hch <;> subst hch
  · exact mem_convert16_bound hx
  · exact mem_convert24_bound hx
  · exact mem_convert32_bound hx

/-- Witness for the amended C8: the buffer `[0, 0]` at depth 16 decodes to
the sample 0, which lies in [-1, 1]. -/
theorem sample_range_closed_witness :
    ConvertToFloat32 [0, 0] 16 = .ok [[(0 : ℚ)]] ∧ -1 ≤ (0 : ℚ) ∧ (0 : ℚ) ≤ 1 := by
  have hc : ConvertToFloat32 [0, 0] 16 = .ok [[(0 : ℚ)]] := by
    have h0 : ConvertToFloat32 [0, 0] 16 = .ok [convert16BitToFloat32 [0, 0]] := by
      simp [ConvertToFloat32]
    rw [h0, convert16_pair, show float32OfInt (int16OfBytes 0 0) = 0 from by decide]
    norm_num
  exact ⟨hc, sample_range_closed [0, 0] 16 (by norm_num) [[(0 : ℚ)]] hc [(0 : ℚ)]
    (by simp) (0 : ℚ) (by simp)⟩

/-! ## Claims about the pipeline -/

/-- C1: when decoding and inference succeed, the enqueue attempt never
blocks and never fails the call: if the queue is at capacity the envelope
is discarded (queue state unchanged), exactly one queue-full diagnostic is
logged, and `ProcessData` still returns success; if capacity is available
the envelope is enqueued and no diagnostic is logged. -/
theorem processData_shed_on_full {α : Type} [DecidableEq α] (clock : ℕ → ℤ)
    (bitDepth : ℕ) (predict : List (List ℚ) → Except String α) (q : QueueState α)
    (data : List Byte) (startTime : ℤ) (source : String)
    (s : List (List ℚ)) (r : α)
    (hconv : ConvertToFloat32 data bitDepth = .ok s)
    (hpred : predict s = .ok r) :
    (ProcessData clock bitDepth predict q data startTime source).1 = .ok () ∧
    (q.capacity ≤ q.items.length →
      (ProcessData clock bitDepth predict q data startTime source).2.1 = q ∧
      ((ProcessData clock bitDepth predict q data startTime source).2.2.count
        Event.queueFull) = 1) ∧
    (q.items.length < q.capacity →
      (∃ msg, (ProcessData clock bitDepth predict q data startTime source).2.1.items
          = q.items ++ [msg]) ∧
      ((ProcessData clock bitDepth predict q data startTime source).2.2.count
        Event.queueFull) = 0) := by
  simp only [ProcessData, hconv, hpred]
  split_ifs with h
  · refine ⟨rfl, fun hc => absurd h (by omega), fun _ => ⟨⟨_, rfl⟩, ?_⟩⟩
    simp [List.count_cons, List.count_nil]
  · refine ⟨rfl, fun hc => ⟨rfl, ?_⟩, fun hlt => absurd hlt h⟩
    simp [List.count_cons, List.count_nil]

/-- Witness for C1: a successful run against a zero-capacity queue sheds,
logs exactly one queue-full diagnostic, and still returns success. -/
theorem processData_shed_on_full_witness :
    ConvertToFloat32 [] 16 = .ok [[]] ∧
    (ProcessData (fun i => (i : ℤ)) 16 (fun _ => Except.ok (0 : ℕ))
        ⟨0, []⟩ [] 0 "").1 = .ok () ∧
    (ProcessData (fun i => (i : ℤ)) 16 (fun _ => Except.ok (0 : ℕ))
        ⟨0, []⟩ [] 0 "").2.1 = ⟨0, []⟩ ∧
    ((ProcessData (fun i => (i : ℤ)) 16 (fun _ => Except.ok (0 : ℕ))
        ⟨0, []⟩ [] 0 "").2.2.count Event.queueFull) = 1 := by
  have h := processData_shed_on_full (fun i => (i : ℤ)) 16 (fun _ => Except.ok (0 : ℕ))
    ⟨0, []⟩ [] 0 "" [[]] 0 conv_nil_16 rfl
  exact ⟨conv_nil_16, h.1, (h.2.1 (by norm_num)).1, (h.2.1 (by norm_num)).2⟩

/-- C5: when decoding succeeds but the engine's Predict reports an error,
`ProcessData` returns an error wrapping the engine's cause, and no
envelope is constructed, submitted, or enqueued (queue unchanged). -/
theorem processData_inference_error {α : Type} (clock : ℕ → ℤ) (bitDepth : ℕ)
    (predict : List (List ℚ) → Except String α) (q : QueueState α)
    (data : List Byte) (startTime : ℤ) (source : String)
    (s : List (List ℚ)) (e : String)
    (hconv : ConvertToFloat32 data bitDepth = .ok s)
    (hpred : predict s = .error e) :
    (ProcessData clock bitDepth predict q data startTime source).1 =
        .error (.inference e) ∧
    (ProcessData clock bitDepth predict q data startTime source).2.1 = q ∧
    (∀ msg, Event.submitted msg ∉
        (ProcessData clock bitDepth predict q data startTime source).2.2) ∧
    Event.enqueued ∉
      (ProcessData clock bitDepth predict q data startTime source).2.2 := by
  simp only [ProcessData, hconv, hpred]
  simp

/-- Witness for C5: a failing engine aborts the call with the wrapped
cause, and nothing reaches the queue. -/
theorem processData_inference_error_witness :
    ConvertToFloat32 [] 16 = .ok [[]] ∧
    (ProcessData (fun i => (i : ℤ)) 16 (fun _ => Except.error (α := ℕ) "boom")
        ⟨1, []⟩ [] 0 "").1 = .error (.inference "boom") ∧
    (ProcessData (fun i => (i : ℤ)) 16 (fun _ => Except.error (α := ℕ) "boom")
        ⟨1, []⟩ [] 0 "").2.1 = ⟨1, []⟩ ∧
    Event.enqueued ∉ (ProcessData (fun i => (i : ℤ)) 16
        (fun _ => Except.error (α := ℕ) "boom") ⟨1, []⟩ [] 0 "").2.2 := by
  have h := processData_inference_error (fun i => (i : ℤ)) 16
    (fun _ => Except.error (α := ℕ) "boom") ⟨1, []⟩ [] 0 "" [[]] "boom" conv_nil_16 rfl
  exact ⟨conv_nil_16, h.1, h.2.1, h.2.2.2⟩

/-- C6: an unsupported bit depth makes `ConvertToFloat32` return the
conversion error with no sample output, and `ProcessData` surfaces that
error (wrapped with the bit depth) without invoking inference, building an
envelope, or touching the queue. -/
theorem unsupported_bit_depth (data : List Byte) (d : ℕ)
    (h16 : d ≠ 16) (h24 : d ≠ 24) (h32 : d ≠ 32) :
    ConvertToFloat32 data d = .error .unsupportedBitDepth ∧
    ∀ (α : Type) (clock : ℕ → ℤ) (predict : List (List ℚ) → Except String α)
      (q : QueueState α) (startTime : ℤ) (source : String),
      (ProcessData clock d predict q data startTime source).1 =
          .error (.conversion d .unsupportedBitDepth) ∧
      (ProcessData clock d predict q data startTime source).2.1 = q ∧
      Event.predicted ∉ (ProcessData clock d predict q data startTime source).2.2 ∧
      (∀ msg, Event.submitted msg ∉
          (ProcessData clock d predict q data startTime source).2.2) ∧
      Event.enqueued ∉ (ProcessData clock d predict q data startTime source).2.2 := by
  have hc : ConvertToFloat32 data d = .error .unsupportedBitDepth := by
    simp [ConvertToFloat32, h16, h24, h32]
  refine ⟨hc, fun α clock predict q startTime source => ?_⟩
  simp only [ProcessData, hc]
  simp

/-- Witness for C6 at bit depth 8. -/
theorem unsupported_bit_depth_witness :
    ((8 : ℕ) ≠ 16 ∧ (8 : ℕ) ≠ 24 ∧ (8 : ℕ) ≠ 32) ∧
    ConvertToFloat32 [1] 8 = .error .unsupportedBitDepth ∧
    (ProcessData (fun i => (i : ℤ)) 8 (fun _ => Except.ok (0 : ℕ))
        ⟨1, []⟩ [1] 0 "").1 = .error (.conversion 8 .unsupportedBitDepth) ∧
    Event.predicted ∉ (ProcessData (fun i => (i : ℤ)) 8 (fun _ => Except.ok (0 : ℕ))
        ⟨1, []⟩ [1] 0 "").2.2 := by
  have h := unsupported_bit_depth [1] 8 (by norm_num) (by norm_num) (by norm_num)
  have h2 := h.2 ℕ (fun i => (i : ℤ)) (fun _ => Except.ok 0) ⟨1, []⟩ 0 ""
  exact ⟨⟨by norm_num, by norm_num, by norm_num⟩, h.1, h2.1, h2.2.2.1⟩

/-- C7 counterexample: in a successful concrete run the very first event of
the trace is the clock read that supplies the start timestamp, and decoding
completes only afterwards (second event) — so the start timestamp is NOT
captured after decoding has completed / immediately before Predict. -/
theorem processData_timing_cex :
    (ProcessData (fun i => (i : ℤ)) 16 (fun _ => Except.ok (0 : ℕ))
        ⟨1, []⟩ [0, 0] 0 "").1 = .ok () ∧
    (ProcessData (fun i => (i : ℤ)) 16 (fun _ => Except.ok (0 : ℕ))
        ⟨1, []⟩ [0, 0] 0 "").2.2.get? 0 = some (.clockRead 0) ∧
    (ProcessData (fun i => (i : ℤ)) 16 (fun _ => Except.ok (0 : ℕ))
        ⟨1, []⟩ [0, 0] 0 "").2.2.get? 1 = some .decoded := by
  simp [ProcessData, ConvertToFloat32]

/-- C7 (amended): in every successful call the trace begins with the start
clock read, then decode completion, then the Predict invocation, then the
second clock read; the envelope's elapsed duration is the difference of
the two clock reads, so it spans decoding plus inference (the start
timestamp is captured at entry, before decoding, not immediately before
Predict). -/
theorem processData_timing_spans_decode {α : Type} (clock : ℕ → ℤ) (bitDepth : ℕ)
    (predict : List (List ℚ) → Except String α) (q : QueueState α)
    (data : List Byte) (startTime : ℤ) (source : String)
    (s : List (List ℚ)) (r : α)
    (hconv : ConvertToFloat32 data bitDepth = .ok s)
    (hpred : predict s = .ok r) :
    (ProcessData clock bitDepth predict q data startTime source).2.2.take 4 =
        [.clockRead (clock 0), .decoded, .predicted, .clockRead (clock 1)] ∧
    ∃ msg, (ProcessData clock bitDepth predict q data startTime source).2.2.get? 4 =
        some (.submitted msg) ∧ msg.ElapsedTime = clock 1 - clock 0 := by
  simp only [ProcessData, hconv, hpred, logProcessingTime]
  split_ifs with h <;> exact ⟨rfl, _, rfl, rfl⟩

/-- Witness for the amended C7 on a concrete successful run with the
identity clock: the elapsed duration is `clock 1 - clock 0`. -/
theorem processData_timing_spans_decode_witness :
    ConvertToFloat32 [] 16 = .ok [[]] ∧
    (ProcessData (fun i => (i : ℤ)) 16 (fun _ => Except.ok (0 : ℕ))
        ⟨1, []⟩ [] 5 "mic").2.2.take 4 =
      [.clockRead 0, .decoded, .predicted, .clockRead 1] ∧
    ∃ msg, (ProcessData (fun i => (i : ℤ)) 16 (fun _ => Except.ok (0 : ℕ))
        ⟨1, []⟩ [] 5 "mic").2.2.get? 4 = some (.submitted msg) ∧
      msg.ElapsedTime = 1 - 0 := by
  have h := processData_timing_spans_decode (fun i => (i : ℤ)) 16
    (fun _ => Except.ok (0 : ℕ)) ⟨1, []⟩ [] 5 "mic" [[]] 0 conv_nil_16 rfl
  exact ⟨conv_nil_16, h.1, h.2⟩

/-- C9: in every successful call the envelope handed to the dispatch queue
carries the original raw byte buffer unmodified, the caller's arrival
timestamp, the source identifier, and the engine's detections; when there
is room it is exactly the message appended to the queue. -/
theorem processData_envelope_fields {α : Type} (clock : ℕ → ℤ) (bitDepth : ℕ)
    (predict : List (List ℚ) → Except String α) (q : QueueState α)
    (data : List Byte) (startTime : ℤ) (source : String)
    (s : List (List ℚ)) (r : α)
    (hconv : ConvertToFloat32 data bitDepth = .ok s)
    (hpred : predict s = .ok r) :
    ∃ msg : Results α,
      (ProcessData clock bitDepth predict q data startTime source).2.2.get? 4 =
          some (.submitted msg) ∧
      msg.PCMdata = data ∧ msg.StartTime = startTime ∧ msg.Source = source ∧
      msg.Results = r ∧
      (q.items.length < q.capacity →
        (ProcessData clock bitDepth predict q data startTime source).2.1.items =
          q.items ++ [msg]) := by
  simp only [ProcessData, hconv, hpred, logProcessingTime]
  split_ifs with h
  · exact ⟨_, rfl, rfl, rfl, rfl, rfl, fun _ => rfl⟩
  · exact ⟨_, rfl, rfl, rfl, rfl, rfl, fun hlt => absurd hlt h⟩

/-- Witness for C9 on a concrete successful run: the enqueued envelope
carries the input bytes, arrival timestamp 5, source "mic", and result 3. -/
theorem processData_envelope_fields_witness :
    ConvertToFloat32 [] 16 = .ok [[]] ∧
    ∃ msg : Results ℕ,
      (ProcessData (fun i => (i : ℤ)) 16 (fun _ => Except.ok (3 : ℕ))
          ⟨1, []⟩ [] 5 "mic").2.2.get? 4 = some (.submitted msg) ∧
      msg.PCMdata = [] ∧ msg.StartTime = 5 ∧ msg.Source = "mic" ∧
      msg.Results = 3 ∧
      (ProcessData (fun i => (i : ℤ)) 16 (fun _ => Except.ok (3 : ℕ))
          ⟨1, []⟩ [] 5 "mic").2.1.items = [] ++ [msg] := by
  have h := processData_envelope_fields (fun i => (i : ℤ)) 16
    (fun _ => Except.ok (3 : ℕ)) ⟨1, []⟩ [] 5 "mic" [[]] 3 conv_nil_16 rfl
  obtain ⟨msg, h1, h2, h3, h4, h5, h6⟩ := h
  exact ⟨conv_nil_16, msg, h1, h2, h3, h4, h5, h6 (by norm_num)⟩
